import Mathlib

/-!
Verification of the local-file synchronization core (directory scanner, sync
engine, sync lock) of the Efotos content gallery.

The scanner (`scanDirectory`, `scanLocalMediaFiles`, `convertToInsertContent`)
and the sync engine (`syncLocalMediaFiles`, `syncWithLock`) are shallowly
embedded from `server/fileScanner.ts` and `server/localFileSync.ts`.  The
filesystem and the content store are explicit states; asynchronous JS calls
become sequential state passing (within one sync run all operations are issued
sequentially per item, and the two directory scans touch distinct directories,
so their interleaving is observationally sequential).  Exceptions become
`Except`; JS `try`/`catch` becomes a `match` on the `Except` value.  Store
calls that may throw are driven by an explicit failure schedule
(`StoreBehavior`) so that theorems can quantify over every behaviour of the
collaborator.
-/

/-- Media kind of a file: the `type` field of `LocalFileInfo` ("image" | "video"). -/
inductive MediaType where
  | image
  | video
deriving DecidableEq, Repr

/-- One file on disk: its containing directory, its name inside that directory,
its size, and whether `fs.stat` throws for it (e.g. permission denied). -/
structure FSFile where
  dir : String
  name : String
  size : Nat
  statFails : Bool
deriving DecidableEq, Repr

/-- Filesystem state: the directories that exist, the files that exist, and any
additional paths for which `fs.access` succeeds (symlinks, races, paths outside
the scanned directories). -/
structure FileSystem where
  dirs : List String
  files : List FSFile
  extraAccessible : List String
deriving DecidableEq, Repr

/-- Absolute path of a file: `path.join(dir, name)` on a posix filesystem. -/
def FSFile.path (f : FSFile) : String := f.dir ++ "/" ++ f.name

/-- Model of `fs.access(p)` succeeding: `p` is an existing directory, an existing file, a
directory that holds files, or an extra accessible path.  (A directory holding
files exists even if it was never explicitly created, keeping the model
self-consistent.) -/
def FileSystem.accessible (fs : FileSystem) (p : String) : Bool :=
  fs.dirs.contains p || fs.files.any (fun f => f.dir == p || f.path == p)
    || fs.extraAccessible.contains p

/-- Model of `fs.mkdir(p)` with recursive true: the directory now exists. -/
def FileSystem.mkdirRec (fs : FileSystem) (p : String) : FileSystem :=
  { fs with dirs := p :: fs.dirs }

/-- Model of `getFileStats` (fileScanner): `fs.stat(filePath)` returning the size, or an
error when the file is missing or its stat throws. -/
def statFiles (files : List FSFile) (p : String) : Except String Nat :=
  match files.find? (fun f => f.path == p) with
  | some f => if f.statFails then Except.error ("stat failed: " ++ p) else Except.ok f.size
  | none => Except.error ("no such file: " ++ p)

/-- Model of `String.toLowerCase()` (over the character list, so that proofs and
witnesses evaluate by kernel reduction). -/
def strToLower (s : String) : String := String.mk (s.toList.map Char.toLower)

/-- Model of `path.extname(name)`: the substring from the last dot to the end; empty when
there is no dot or the only dot starts the name. -/
def extname (name : String) : String :=
  let cs := name.toList
  match ((List.range cs.length).filter (fun i => cs.getD i ' ' == '.')).getLast? with
  | none => ""
  | some 0 => ""
  | some i => String.mk (cs.drop i)

/-- Model of `path.basename(name, ext)`: strips `ext` when it is a suffix of `name` and
not the whole of it.  (The code passes the lower-cased extension, so an
upper-case extension on disk is not stripped from the title.) -/
def basenameDrop (name ext : String) : String :=
  let nc := name.toList
  let ec := ext.toList
  if name ≠ ext ∧ nc.drop (nc.length - ec.length) = ec then
    String.mk (nc.take (nc.length - ec.length))
  else name

/-- Model of `path.join(process.cwd(), "server/media")`; the ambient cwd prefix is elided,
all paths in the model are relative to it. -/
def MEDIA_DIR : String := "server/media"

/-- The images directory of the scanner. -/
def IMAGES_DIR : String := MEDIA_DIR ++ "/images"

/-- The videos directory of the scanner. -/
def VIDEOS_DIR : String := MEDIA_DIR ++ "/videos"

/-- Image extension allow-list (fileScanner `IMAGE_EXTENSIONS`). -/
def IMAGE_EXTENSIONS : List String := [".jpg", ".jpeg", ".png", ".gif", ".webp", ".bmp"]

/-- Video extension allow-list (fileScanner `VIDEO_EXTENSIONS`). -/
def VIDEO_EXTENSIONS : List String := [".mp4", ".mov", ".avi", ".mkv", ".webm", ".m4v"]

/-- Model of `getMimeType`: static extension-to-MIME table with an octet-stream default. -/
def getMimeType (extension : String) : String :=
  let e := strToLower extension
  if e = ".jpg" then "image/jpeg"
  else if e = ".jpeg" then "image/jpeg"
  else if e = ".png" then "image/png"
  else if e = ".gif" then "image/gif"
  else if e = ".webp" then "image/webp"
  else if e = ".bmp" then "image/bmp"
  else if e = ".mp4" then "video/mp4"
  else if e = ".mov" then "video/quicktime"
  else if e = ".avi" then "video/x-msvideo"
  else if e = ".mkv" then "video/x-matroska"
  else if e = ".webm" then "video/webm"
  else if e = ".m4v" then "video/x-m4v"
  else "application/octet-stream"

/-- Model of `LocalFileInfo` (fileScanner): the descriptor of one scanned file. -/
structure LocalFileInfo where
  title : String
  type : MediaType
  localFilePath : String
  mimeType : String
  fileSize : Nat
  duration : Option Nat
deriving DecidableEq, Repr

/-- Body of the per-entry loop of `scanDirectory`: filter by extension, stat the
file, push a descriptor; a stat error is caught, logged and the file skipped. -/
def scanStep (files : List FSFile) (dirPath : String) (t : MediaType) (exts : List String)
    (acc : List LocalFileInfo) (file : String) : List LocalFileInfo :=
  let filePath := dirPath ++ "/" ++ file
  let ext := strToLower (extname file)
  if exts.contains ext then
    match statFiles files filePath with
    | Except.ok size =>
        acc ++ [{ title := basenameDrop file ext, type := t, localFilePath := filePath,
                  mimeType := getMimeType ext, fileSize := size, duration := none }]
    | Except.error _ => acc
  else acc

/-- The descriptors produced by `scanDirectory` from an accessible directory:
`fs.readdir` yields the names of the files of that directory, in listing order. -/
def scanList (files : List FSFile) (dirPath : String) (t : MediaType)
    (exts : List String) : List LocalFileInfo :=
  ((files.filter (fun f => f.dir == dirPath)).map FSFile.name).foldl
    (scanStep files dirPath t exts) []

/-- Model of `scanDirectory` (fileScanner): if `fs.access(dirPath)` fails, create the
directory recursively and return zero entries; otherwise list, filter and stat. -/
def scanDirectory (fs : FileSystem) (dirPath : String) (t : MediaType)
    (exts : List String) : List LocalFileInfo × FileSystem :=
  if fs.accessible dirPath then (scanList fs.files dirPath t exts, fs)
  else ([], fs.mkdirRec dirPath)

/-- Model of `scanLocalMediaFiles` (fileScanner): scan the images directory and the videos
directory and concatenate the results. -/
def scanLocalMediaFiles (fs : FileSystem) : List LocalFileInfo × FileSystem :=
  let si := scanDirectory fs IMAGES_DIR MediaType.image IMAGE_EXTENSIONS
  let sv := scanDirectory si.2 VIDEOS_DIR MediaType.video VIDEO_EXTENSIONS
  (si.1 ++ sv.1, sv.2)

/-- Modelled from the spec: the `ContentRecord` entity of the Content Store
(§3); the schema module `@shared/schema` is not under src.  The fields are the
ones the sync engine reads and writes; `localFilePath` is nullable. -/
structure ContentRecord where
  title : String
  type : MediaType
  localFilePath : Option String
  mimeType : String
  fileSize : Nat
  duration : Option Nat
  googleDriveId : Option String
  googleDriveUrl : Option String
deriving DecidableEq, Repr

/-- Model of `convertToInsertContent` (fileScanner): 1:1 field mapping, remote-storage
fields explicitly null. -/
def convertToInsertContent (fi : LocalFileInfo) : ContentRecord :=
  { title := fi.title, type := fi.type, localFilePath := some fi.localFilePath,
    mimeType := fi.mimeType, fileSize := fi.fileSize, duration := fi.duration,
    googleDriveId := none, googleDriveUrl := none }

/-- A store mutation call, as observed at the store boundary. -/
inductive StoreOp where
  | create (c : ContentRecord)
  | delete (p : String)
deriving DecidableEq, Repr

/-- Modelled from the spec: the Content Store (§6), an external collaborator
whose module `server/storage.ts` is not under src.  `contents` is the record
table; `log` records every attempted mutation call in order, so that theorems
about "zero mutations" and "exactly one call" are about the calls themselves. -/
structure Store where
  contents : List ContentRecord
  log : List StoreOp
deriving DecidableEq, Repr

/-- Modelled from the spec: `getAllContent() -> list of ContentRecord`. -/
def Store.getAllContent (st : Store) : List ContentRecord := st.contents

/-- Modelled from the spec: `getContentByLocalPath(path) -> ContentRecord or none`. -/
def Store.getContentByLocalPath (st : Store) (p : String) : Option ContentRecord :=
  st.contents.find? (fun c => c.localFilePath == some p)

/-- Modelled from the spec: `createContent(record)`, inserting the record. -/
def Store.createContent (st : Store) (c : ContentRecord) : Store :=
  { contents := st.contents ++ [c], log := st.log ++ [StoreOp.create c] }

/-- Modelled from the spec: `deleteContentByLocalPath(path)`, removing the
records carrying that local path. -/
def Store.deleteContentByLocalPath (st : Store) (p : String) : Store :=
  { contents := st.contents.filter (fun c => !(c.localFilePath == some p)),
    log := st.log ++ [StoreOp.delete p] }

/-- Failure schedule of the store collaborator: which store calls throw during
the run.  A failing call is still logged as an attempt when it is a mutation. -/
structure StoreBehavior where
  getAllFails : Bool
  lookupFails : List String
  createFails : List String
  deleteFails : List String
deriving DecidableEq, Repr

/-- The behaviour in which every store call succeeds. -/
def noFail : StoreBehavior :=
  { getAllFails := false, lookupFails := [], createFails := [], deleteFails := [] }

/-- Model of `SyncResult` (localFileSync). -/
structure SyncResult where
  added : Nat
  removed : Nat
  unchanged : Nat
  errors : List String
deriving DecidableEq, Repr

/-- JS truthiness of `content.localFilePath`: null/undefined and the empty
string are falsy (`allContent.filter(c => c.localFilePath)`). -/
def pathTruthy : Option String → Bool
  | none => false
  | some s => !(s == "")

/-- One iteration of the addition pass of `syncLocalMediaFiles` (lines 30-46):
look the path up; if absent, create; the whole body is wrapped in a per-item
`try`/`catch` that appends to `errors` and continues. -/
def pass1Step (beh : StoreBehavior) (acc : SyncResult × Store) (fi : LocalFileInfo) :
    SyncResult × Store :=
  let r := acc.1
  let st := acc.2
  if beh.lookupFails.contains fi.localFilePath then
    ({ r with errors := r.errors ++ ["Error adding " ++ fi.title ++ ": lookup failed"] }, st)
  else
    match st.getContentByLocalPath fi.localFilePath with
    | some _ => ({ r with unchanged := r.unchanged + 1 }, st)
    | none =>
      if beh.createFails.contains fi.localFilePath then
        ({ r with errors := r.errors ++ ["Error adding " ++ fi.title ++ ": create failed"] },
         { st with log := st.log ++ [StoreOp.create (convertToInsertContent fi)] })
      else
        ({ r with added := r.added + 1 }, st.createContent (convertToInsertContent fi))

/-- The removal pass of `syncLocalMediaFiles` (lines 48-61).  For each record of
the pre-pass database listing whose truthy path is not in the scanned path set:
`fs.access` succeeding counts it unchanged; `fs.access` failing triggers the
delete.  The delete sits inside the `catch` block, so a throwing delete escapes
the per-item `try` and propagates (modelled by `Except.error` carrying the
accumulated result and store, since the JS result object is shared with the
top-level handler). -/
def pass2 (fs : FileSystem) (beh : StoreBehavior) (paths : List String) :
    List ContentRecord → SyncResult → Store →
      Except (String × SyncResult × Store) (SyncResult × Store)
  | [], r, st => Except.ok (r, st)
  | c :: rest, r, st =>
    match c.localFilePath with
    | none => pass2 fs beh paths rest r st
    | some p =>
      if p = "" then pass2 fs beh paths rest r st
      else if paths.contains p then pass2 fs beh paths rest r st
      else if fs.accessible p then
        pass2 fs beh paths rest { r with unchanged := r.unchanged + 1 } st
      else if beh.deleteFails.contains p then
        Except.error ("delete failed: " ++ p, r, { st with log := st.log ++ [StoreOp.delete p] })
      else
        pass2 fs beh paths rest { r with removed := r.removed + 1 }
          (st.deleteContentByLocalPath p)

/-- The body of the top-level `try` of `syncLocalMediaFiles` (lines 23-63),
parametrised by the scan outcome so that a throwing scan is a possible
behaviour.  An `Except.error` is an exception escaping the body, carrying the
accumulated result and store at that point. -/
def syncBody (scanRes : Except String (List LocalFileInfo)) (fs : FileSystem)
    (beh : StoreBehavior) (st : Store) :
    Except (String × SyncResult × Store) (SyncResult × Store) :=
  let r0 : SyncResult := { added := 0, removed := 0, unchanged := 0, errors := [] }
  match scanRes with
  | Except.error e => Except.error (e, r0, st)
  | Except.ok localFiles =>
    if beh.getAllFails then Except.error ("getAllContent failed", r0, st)
    else
      let localFilePaths := localFiles.map (fun f => f.localFilePath)
      let dbLocalContent := st.contents.filter (fun c => pathTruthy c.localFilePath)
      let p1 := localFiles.foldl (pass1Step beh) (r0, st)
      pass2 fs beh localFilePaths dbLocalContent p1.1 p1.2

/-- Model of `syncLocalMediaFiles` around an explicit scan outcome: the top-level
`catch` (lines 64-68) appends the failure to `errors` and returns the partial
result. -/
def syncEngine (scanRes : Except String (List LocalFileInfo)) (fs : FileSystem)
    (beh : StoreBehavior) (st : Store) : SyncResult × Store :=
  match syncBody scanRes fs beh st with
  | Except.ok pr => pr
  | Except.error epr =>
    ({ epr.2.1 with errors := epr.2.1.errors ++ ["Sync failed: " ++ epr.1] }, epr.2.2)

/-- Model of `syncLocalMediaFiles` (localFileSync): scan, then reconcile.  Returns the
result, the final store, and the final filesystem (the scan may create the
media directories). -/
def syncLocalMediaFiles (fs : FileSystem) (beh : StoreBehavior) (st : Store) :
    SyncResult × Store × FileSystem :=
  let s := scanLocalMediaFiles fs
  let es := syncEngine (Except.ok s.1) s.2 beh st
  (es.1, es.2, s.2)

/-- Model of `syncWithLock` (localFileSync, lines 75-87) over the concrete engine: if the
in-progress flag is set, return null immediately, leaving store and filesystem
untouched; otherwise run the engine and clear the flag. -/
def syncWithLock (isSyncing : Bool) (fs : FileSystem) (beh : StoreBehavior) (st : Store) :
    Option SyncResult × Bool × Store × FileSystem :=
  if isSyncing then (none, isSyncing, st, fs)
  else
    let res := syncLocalMediaFiles fs beh st
    (some res.1, false, res.2.1, res.2.2)

/-- Model of `syncWithLock` over an arbitrary engine outcome (the spec's
`runExclusive(syncFn)`), to state lock properties that hold even when the
engine raises unexpectedly: the `finally` clears the flag on every exit path,
and a raising engine propagates its exception (`Except.error`) with the flag
cleared. -/
def runExclusive (isSyncing : Bool) (engine : Except String SyncResult) :
    Except String (Option SyncResult) × Bool :=
  if isSyncing then (Except.ok none, isSyncing)
  else
    match engine with
    | Except.ok r => (Except.ok (some r), false)
    | Except.error e => (Except.error e, false)

/-- Records of the removal pass that are counted `unchanged`: truthy path,
absent from the scanned path set, still accessible. -/
def liveRec (fs : FileSystem) (paths : List String) (c : ContentRecord) : Bool :=
  match c.localFilePath with
  | none => false
  | some p =>
    if p = "" then false else if paths.contains p then false else fs.accessible p

/-- Records of the removal pass that are deleted: truthy path, absent from the
scanned path set, inaccessible. -/
def deadRec (fs : FileSystem) (paths : List String) (c : ContentRecord) : Bool :=
  match c.localFilePath with
  | none => false
  | some p =>
    if p = "" then false else if paths.contains p then false else !(fs.accessible p)

/-- The paths the removal pass deletes, in order. -/
def deadPathsOf (fs : FileSystem) (paths : List String) (dbList : List ContentRecord) :
    List String :=
  (dbList.filter (deadRec fs paths)).filterMap (fun c => c.localFilePath)

/-- A record survives the removal pass when its path is none of the deleted ones. -/
def survives (dead : List String) (c : ContentRecord) : Bool :=
  dead.all (fun p => !(c.localFilePath == some p))

/-- The store as left behind by the removal pass, whether it completed or a
delete threw part-way. -/
def pass2Store : Except (String × SyncResult × Store) (SyncResult × Store) → Store
  | Except.ok pr => pr.2
  | Except.error epr => epr.2.2

/-- Test fixture: both media directories exist; one image and one video on disk. -/
def fsTwo : FileSystem :=
  ⟨[IMAGES_DIR, VIDEOS_DIR],
   [⟨IMAGES_DIR, "a.jpg", 2000000, false⟩, ⟨VIDEOS_DIR, "b.mp4", 10000000, false⟩], []⟩

/-- Test fixture: three images in the images directory, the stat of c.jpg throws. -/
def fsThreeOneBad : FileSystem :=
  ⟨[IMAGES_DIR, VIDEOS_DIR],
   [⟨IMAGES_DIR, "a.jpg", 100, false⟩, ⟨IMAGES_DIR, "b.jpg", 200, false⟩,
    ⟨IMAGES_DIR, "c.jpg", 300, true⟩], []⟩

/-- Test fixture: both media directories exist and are empty. -/
def fsEmptyDirs : FileSystem := ⟨[IMAGES_DIR, VIDEOS_DIR], [], []⟩

/-- Test fixture: empty media directories plus an accessible path x outside them. -/
def fsExtraX : FileSystem := ⟨[IMAGES_DIR, VIDEOS_DIR], [], ["x"]⟩

/-- Test fixture: a store record whose local path x is outside the scan set. -/
def recX : ContentRecord :=
  ⟨"x", MediaType.image, some "x", "image/png", 1, none, none, none⟩

/-- Test fixture: a record whose local path gone/a no longer exists on disk. -/
def recGoneA : ContentRecord :=
  ⟨"a", MediaType.image, some "gone/a", "image/png", 1, none, none, none⟩

/-- Test fixture: a record whose local path gone/b no longer exists on disk. -/
def recGoneB : ContentRecord :=
  ⟨"b", MediaType.image, some "gone/b", "image/png", 1, none, none, none⟩

/-- Test fixture: the store behaviour in which only the delete of gone/a throws. -/
def behDelFail : StoreBehavior := { noFail with deleteFails := ["gone/a"] }

/-- Test fixture: the scanned descriptor of a.jpg in fsTwo. -/
def fiAJpg : LocalFileInfo :=
  ⟨"a", MediaType.image, IMAGES_DIR ++ "/a.jpg", "image/jpeg", 2000000, none⟩

/-- Test fixture: the stored record corresponding to a.jpg. -/
def recAJpg : ContentRecord := convertToInsertContent fiAJpg

/-- The addition pass of one run with an all-succeeding store, from the fresh
zero tally. -/
def pass1Run (A : List LocalFileInfo) (st : Store) : SyncResult × Store :=
  A.foldl (pass1Step noFail) (⟨0, 0, 0, []⟩, st)

/-- Model of `dbLocalContent`: the store listing restricted to records with a truthy
local path. -/
def dbLocal (st : Store) : List ContentRecord :=
  st.contents.filter (fun c => pathTruthy c.localFilePath)

/-- Model of `localFilePaths`: the scanned path set. -/
def pathsOf (A : List LocalFileInfo) : List String := A.map (fun f => f.localFilePath)

/-- The store left behind by one all-succeeding sync run over scan result `A`
against filesystem `fsS`. -/
def run1Store (fsS : FileSystem) (A : List LocalFileInfo) (st : Store) : Store :=
  ⟨(pass1Run A st).2.contents.filter (survives (deadPathsOf fsS (pathsOf A) (dbLocal st))),
   (pass1Run A st).2.log ++ (deadPathsOf fsS (pathsOf A) (dbLocal st)).map StoreOp.delete⟩

/-! ### Scanner lemmas -/

theorem mkdirRec_files (fs : FileSystem) (q : String) : (fs.mkdirRec q).files = fs.files := rfl

theorem accessible_mkdirRec_self (fs : FileSystem) (d : String) :
    (fs.mkdirRec d).accessible d = true := by
  simp [FileSystem.mkdirRec, FileSystem.accessible]

theorem accessible_mkdirRec_mono (fs : FileSystem) (q p : String)
    (h : fs.accessible p = true) : (fs.mkdirRec q).accessible p = true := by
  simp [FileSystem.mkdirRec, FileSystem.accessible] at h ⊢
  rcases h with (h | h) | h
  · exact Or.inl (Or.inl (Or.inr h))
  · exact Or.inl (Or.inr h)
  · exact Or.inr h

theorem filter_dir_nil (fs : FileSystem) (d : String) (h : fs.accessible d = false) :
    fs.files.filter (fun f => f.dir == d) = [] := by
  simp only [FileSystem.accessible, Bool.or_eq_false_iff] at h
  refine List.filter_eq_nil_iff.mpr (fun f hf => ?_)
  have h2 := List.any_eq_false.mp h.1.2 f hf
  simp only [Bool.or_eq_true, beq_iff_eq, not_or] at h2
  simp [h2.1]

theorem scanList_eq_nil (files : List FSFile) (d : String) (t : MediaType)
    (e : List String) (h : files.filter (fun f => f.dir == d) = []) :
    scanList files d t e = [] := by
  simp [scanList, h]

theorem scan_twice (fs : FileSystem) :
    scanLocalMediaFiles (scanLocalMediaFiles fs).2 =
      ((scanLocalMediaFiles fs).1, (scanLocalMediaFiles fs).2) := by
  unfold scanLocalMediaFiles scanDirectory
  by_cases hI : fs.accessible IMAGES_DIR = true
  · by_cases hV : fs.accessible VIDEOS_DIR = true
    · simp [hI, hV]
    · simp only [Bool.not_eq_true] at hV
      have hnil := scanList_eq_nil fs.files VIDEOS_DIR MediaType.video VIDEO_EXTENSIONS
        (filter_dir_nil fs VIDEOS_DIR hV)
      simp [hI, hV, accessible_mkdirRec_mono _ _ _ hI, accessible_mkdirRec_self,
        mkdirRec_files, hnil]
  · simp only [Bool.not_eq_true] at hI
    have hnilI := scanList_eq_nil fs.files IMAGES_DIR MediaType.image IMAGE_EXTENSIONS
      (filter_dir_nil fs IMAGES_DIR hI)
    by_cases hV2 : (fs.mkdirRec IMAGES_DIR).accessible VIDEOS_DIR = true
    · simp [hI, hV2, accessible_mkdirRec_self, mkdirRec_files, hnilI]
    · simp only [Bool.not_eq_true] at hV2
      have hnilV := scanList_eq_nil fs.files VIDEOS_DIR MediaType.video VIDEO_EXTENSIONS
        (by have := filter_dir_nil (fs.mkdirRec IMAGES_DIR) VIDEOS_DIR hV2
            simpa [mkdirRec_files] using this)
      simp [hI, hV2, accessible_mkdirRec_self, accessible_mkdirRec_mono,
        mkdirRec_files, hnilI, hnilV]

theorem pass1Step_contents (beh : StoreBehavior) (acc : SyncResult × Store) (fi : LocalFileInfo) :
    (pass1Step beh acc fi).2.contents = acc.2.contents ∨
      (pass1Step beh acc fi).2.contents = acc.2.contents ++ [convertToInsertContent fi] := by
  rcases acc with ⟨r, st⟩
  by_cases h1 : fi.localFilePath ∈ beh.lookupFails
  · simp [pass1Step, h1]
  · cases hl : st.getContentByLocalPath fi.localFilePath with
    | some c => simp [pass1Step, h1, hl]
    | none =>
      by_cases h2 : fi.localFilePath ∈ beh.createFails
      · simp [pass1Step, h1, hl, h2]
      · simp [pass1Step, h1, hl, h2, Store.createContent]

theorem pass1Step_log (beh : StoreBehavior) (acc : SyncResult × Store) (fi : LocalFileInfo) :
    (pass1Step beh acc fi).2.log = acc.2.log ∨
      (pass1Step beh acc fi).2.log = acc.2.log ++ [StoreOp.create (convertToInsertContent fi)] := by
  rcases acc with ⟨r, st⟩
  by_cases h1 : fi.localFilePath ∈ beh.lookupFails
  · simp [pass1Step, h1]
  · cases hl : st.getContentByLocalPath fi.localFilePath with
    | some c => simp [pass1Step, h1, hl]
    | none =>
      by_cases h2 : fi.localFilePath ∈ beh.createFails
      · simp [pass1Step, h1, hl, h2]
      · simp [pass1Step, h1, hl, h2, Store.createContent]

theorem pass1Step_count (beh : StoreBehavior) (acc : SyncResult × Store) (fi : LocalFileInfo) :
    (pass1Step beh acc fi).1.added + (pass1Step beh acc fi).1.unchanged +
      ((pass1Step beh acc fi).1.errors).length =
      acc.1.added + acc.1.unchanged + acc.1.errors.length + 1 := by
  rcases acc with ⟨r, st⟩
  by_cases h1 : fi.localFilePath ∈ beh.lookupFails
  · simp [pass1Step, h1]
    omega
  · cases hl : st.getContentByLocalPath fi.localFilePath with
    | some c =>
      simp [pass1Step, h1, hl]
      omega
    | none =>
      by_cases h2 : fi.localFilePath ∈ beh.createFails
      · simp [pass1Step, h1, hl, h2]
        omega
      · simp [pass1Step, h1, hl, h2, Store.createContent]
        omega

theorem pass1Step_found (beh : StoreBehavior) (r : SyncResult) (st : Store) (fi : LocalFileInfo)
    (h1 : fi.localFilePath ∉ beh.lookupFails)
    (h : (st.getContentByLocalPath fi.localFilePath).isSome = true) :
    pass1Step beh (r, st) fi = ({ r with unchanged := r.unchanged + 1 }, st) := by
  cases hl : st.getContentByLocalPath fi.localFilePath with
  | some c => simp [pass1Step, h1, hl]
  | none => rw [hl] at h; simp at h

theorem pass1Step_present (beh : StoreBehavior) (acc : SyncResult × Store) (fi : LocalFileInfo)
    (h1 : fi.localFilePath ∉ beh.lookupFails) (h2 : fi.localFilePath ∉ beh.createFails) :
    ∃ c ∈ (pass1Step beh acc fi).2.contents, c.localFilePath = some fi.localFilePath := by
  rcases acc with ⟨r, st⟩
  cases hl : st.getContentByLocalPath fi.localFilePath with
  | some c =>
    have hmem := List.mem_of_find?_eq_some hl
    have hp := List.find?_some hl
    simp only [beq_iff_eq] at hp
    refine ⟨c, ?_, hp⟩
    simp [pass1Step, h1, hl]
    exact hmem
  | none =>
    refine ⟨convertToInsertContent fi, ?_, rfl⟩
    simp [pass1Step, h1, h2, hl, Store.createContent]

theorem pass1_mono (beh : StoreBehavior) (A : List LocalFileInfo) :
    ∀ (acc : SyncResult × Store) (p : String),
      (∃ c ∈ acc.2.contents, c.localFilePath = some p) →
      ∃ c ∈ (A.foldl (pass1Step beh) acc).2.contents, c.localFilePath = some p := by
  induction A with
  | nil => intro acc p h; simpa using h
  | cons a rest ih =>
    intro acc p h
    rw [List.foldl_cons]
    apply ih
    rcases pass1Step_contents beh acc a with hc | hc
    · rw [hc]; exact h
    · rw [hc]
      rcases h with ⟨c, hm, hp⟩
      exact ⟨c, List.mem_append_left _ hm, hp⟩

theorem pass1_present (beh : StoreBehavior)
    (h1 : beh.lookupFails = []) (h2 : beh.createFails = []) (A : List LocalFileInfo) :
    ∀ (acc : SyncResult × Store) (fi : LocalFileInfo), fi ∈ A →
      ∃ c ∈ (A.foldl (pass1Step beh) acc).2.contents,
        c.localFilePath = some fi.localFilePath := by
  induction A with
  | nil => intro acc fi h; cases h
  | cons a rest ih =>
    intro acc fi hmem
    rw [List.foldl_cons]
    rcases List.mem_cons.mp hmem with rfl | hmem'
    · exact pass1_mono beh rest _ _ (pass1Step_present beh acc fi (by simp [h1]) (by simp [h2]))
    · exact ih _ fi hmem'

theorem pass1_all_found (beh : StoreBehavior) (h1 : beh.lookupFails = []) (A : List LocalFileInfo) :
    ∀ (r : SyncResult) (st : Store),
      (∀ fi ∈ A, (st.getContentByLocalPath fi.localFilePath).isSome = true) →
      A.foldl (pass1Step beh) (r, st) = ({ r with unchanged := r.unchanged + A.length }, st) := by
  induction A with
  | nil => intro r st _; simp
  | cons a rest ih =>
    intro r st h
    rw [List.foldl_cons,
      pass1Step_found beh r st a (by simp [h1]) (h a (List.mem_cons_self a rest)),
      ih _ st (fun fi hfi => h fi (List.mem_cons_of_mem a hfi))]
    simp only [List.length_cons]
    congr 2
    omega

theorem pass1_contents_shape (beh : StoreBehavior) (A : List LocalFileInfo) :
    ∀ acc : SyncResult × Store, ∃ news,
      (A.foldl (pass1Step beh) acc).2.contents = acc.2.contents ++ news ∧
      ∀ n ∈ news, ∃ fi ∈ A, n = convertToInsertContent fi := by
  induction A with
  | nil => intro acc; exact ⟨[], by simp, by simp⟩
  | cons a rest ih =>
    intro acc
    rw [List.foldl_cons]
    rcases ih (pass1Step beh acc a) with ⟨news, hn, hmem⟩
    rcases pass1Step_contents beh acc a with hc | hc
    · refine ⟨news, by rw [hn, hc], fun n hn' => ?_⟩
      rcases hmem n hn' with ⟨fi, hfi, he⟩
      exact ⟨fi, List.mem_cons_of_mem a hfi, he⟩
    · refine ⟨convertToInsertContent a :: news, ?_, ?_⟩
      · rw [hn, hc, List.append_assoc]
        rfl
      · intro n hn'
        rcases List.mem_cons.mp hn' with rfl | hn''
        · exact ⟨a, List.mem_cons_self a rest, rfl⟩
        · rcases hmem n hn'' with ⟨fi, hfi, he⟩
          exact ⟨fi, List.mem_cons_of_mem a hfi, he⟩

theorem pass1_log_shape (beh : StoreBehavior) (A : List LocalFileInfo) :
    ∀ acc : SyncResult × Store, ∃ es,
      (A.foldl (pass1Step beh) acc).2.log = acc.2.log ++ es ∧
      ∀ e ∈ es, ∃ fi ∈ A, e = StoreOp.create (convertToInsertContent fi) := by
  induction A with
  | nil => intro acc; exact ⟨[], by simp, by simp⟩
  | cons a rest ih =>
    intro acc
    rw [List.foldl_cons]
    rcases ih (pass1Step beh acc a) with ⟨es, hn, hmem⟩
    rcases pass1Step_log beh acc a with hc | hc
    · refine ⟨es, by rw [hn, hc], fun e he => ?_⟩
      rcases hmem e he with ⟨fi, hfi, hee⟩
      exact ⟨fi, List.mem_cons_of_mem a hfi, hee⟩
    · refine ⟨StoreOp.create (convertToInsertContent a) :: es, ?_, ?_⟩
      · rw [hn, hc, List.append_assoc]
        rfl
      · intro e he
        rcases List.mem_cons.mp he with rfl | he'
        · exact ⟨a, List.mem_cons_self a rest, rfl⟩
        · rcases hmem e he' with ⟨fi, hfi, hee⟩
          exact ⟨fi, List.mem_cons_of_mem a hfi, hee⟩

theorem pass1_no_errors (beh : StoreBehavior)
    (h1 : beh.lookupFails = []) (h2 : beh.createFails = []) (A : List LocalFileInfo) :
    ∀ acc : SyncResult × Store,
      (A.foldl (pass1Step beh) acc).1.errors = acc.1.errors := by
  induction A with
  | nil => intro acc; rfl
  | cons a rest ih =>
    intro acc
    rw [List.foldl_cons, ih]
    rcases acc with ⟨r, st⟩
    cases hl : st.getContentByLocalPath a.localFilePath with
    | some c => simp [pass1Step, h1, hl]
    | none => simp [pass1Step, h1, h2, hl, Store.createContent]

theorem pass1_count (beh : StoreBehavior) (A : List LocalFileInfo) :
    ∀ acc : SyncResult × Store,
      (A.foldl (pass1Step beh) acc).1.added + (A.foldl (pass1Step beh) acc).1.unchanged +
        ((A.foldl (pass1Step beh) acc).1.errors).length =
      acc.1.added + acc.1.unchanged + acc.1.errors.length + A.length := by
  induction A with
  | nil => intro acc; simp
  | cons a rest ih =>
    intro acc
    rw [List.foldl_cons]
    have h := pass1Step_count beh acc a
    have h2 := ih (pass1Step beh acc a)
    simp only [List.length_cons]
    omega

theorem survives_nil (c : ContentRecord) : survives [] c = true := by
  simp [survives]

theorem survives_cons (p : String) (dead : List String) (c : ContentRecord) :
    survives (p :: dead) c = (!(c.localFilePath == some p) && survives dead c) := by
  simp [survives, List.all_cons]

theorem filter_survives_nil (l : List ContentRecord) : l.filter (survives []) = l := by
  refine List.filter_eq_self.mpr (fun a _ => survives_nil a)

theorem pass2_spec (fs : FileSystem) (beh : StoreBehavior) (paths : List String)
    (hdel : beh.deleteFails = []) (dbList : List ContentRecord) :
    ∀ (r : SyncResult) (st : Store),
      pass2 fs beh paths dbList r st = Except.ok
        ({ r with unchanged := r.unchanged + (dbList.filter (liveRec fs paths)).length,
                  removed := r.removed + (dbList.filter (deadRec fs paths)).length },
         { contents := st.contents.filter (survives (deadPathsOf fs paths dbList)),
           log := st.log ++ (deadPathsOf fs paths dbList).map StoreOp.delete }) := by
  induction dbList with
  | nil =>
    intro r st
    simp [pass2, deadPathsOf, filter_survives_nil]
  | cons c rest ih =>
    intro r st
    cases hlp : c.localFilePath with
    | none =>
      have hlive : liveRec fs paths c = false := by simp [liveRec, hlp]
      have hdead : deadRec fs paths c = false := by simp [deadRec, hlp]
      have hdp : deadPathsOf fs paths (c :: rest) = deadPathsOf fs paths rest := by
        simp [deadPathsOf, List.filter_cons, hdead]
      rw [show pass2 fs beh paths (c :: rest) r st = pass2 fs beh paths rest r st by
        simp [pass2, hlp]]
      rw [ih r st]
      simp [List.filter_cons, hlive, hdead, hdp]
    | some p =>
      by_cases hp : p = ""
      · subst hp
        have hlive : liveRec fs paths c = false := by simp [liveRec, hlp]
        have hdead : deadRec fs paths c = false := by simp [deadRec, hlp]
        have hdp : deadPathsOf fs paths (c :: rest) = deadPathsOf fs paths rest := by
          simp [deadPathsOf, List.filter_cons, hdead]
        rw [show pass2 fs beh paths (c :: rest) r st = pass2 fs beh paths rest r st by
          simp [pass2, hlp]]
        rw [ih r st]
        simp [List.filter_cons, hlive, hdead, hdp]
      · by_cases hmem : p ∈ paths
        · have hlive : liveRec fs paths c = false := by simp [liveRec, hlp, hp, hmem]
          have hdead : deadRec fs paths c = false := by simp [deadRec, hlp, hp, hmem]
          have hdp : deadPathsOf fs paths (c :: rest) = deadPathsOf fs paths rest := by
            simp [deadPathsOf, List.filter_cons, hdead]
          rw [show pass2 fs beh paths (c :: rest) r st = pass2 fs beh paths rest r st by
            simp [pass2, hlp, hp, hmem]]
          rw [ih r st]
          simp [List.filter_cons, hlive, hdead, hdp]
        · by_cases hacc : fs.accessible p = true
          · have hlive : liveRec fs paths c = true := by simp [liveRec, hlp, hp, hmem, hacc]
            have hdead : deadRec fs paths c = false := by simp [deadRec, hlp, hp, hmem, hacc]
            have hdp : deadPathsOf fs paths (c :: rest) = deadPathsOf fs paths rest := by
              simp [deadPathsOf, List.filter_cons, hdead]
            rw [show pass2 fs beh paths (c :: rest) r st =
                pass2 fs beh paths rest { r with unchanged := r.unchanged + 1 } st by
              simp [pass2, hlp, hp, hmem, hacc]]
            rw [ih _ st]
            simp only [List.filter_cons, hlive, hdead, hdp, List.length_cons, if_true, if_false,
              Except.ok.injEq, Prod.mk.injEq, SyncResult.mk.injEq, Store.mk.injEq,
              cond_true, cond_false, Bool.false_eq_true, eq_self_iff_true, and_true, true_and]
            omega
          · simp only [Bool.not_eq_true] at hacc
            have hnd : ¬ p ∈ beh.deleteFails := by simp [hdel]
            have hlive : liveRec fs paths c = false := by simp [liveRec, hlp, hp, hmem, hacc]
            have hdead : deadRec fs paths c = true := by simp [deadRec, hlp, hp, hmem, hacc]
            have hdp : deadPathsOf fs paths (c :: rest) = p :: deadPathsOf fs paths rest := by
              simp [deadPathsOf, List.filter_cons, hdead, List.filterMap_cons, hlp]
            rw [show pass2 fs beh paths (c :: rest) r st =
                pass2 fs beh paths rest { r with removed := r.removed + 1 }
                  (st.deleteContentByLocalPath p) by
              simp [pass2, hlp, hp, hmem, hacc, hnd]]
            rw [ih _ _]
            simp only [List.filter_cons, hlive, hdead, hdp, List.length_cons, if_true, if_false,
              Except.ok.injEq, Prod.mk.injEq, SyncResult.mk.injEq, Store.mk.injEq,
              cond_true, cond_false, Store.deleteContentByLocalPath, Bool.false_eq_true, eq_self_iff_true, and_true, true_and]
            refine ⟨by omega, ?_, ?_⟩
            · rw [List.filter_filter]
              refine List.filter_congr (fun a _ => ?_)
              rw [survives_cons, Bool.and_comm]
            · rw [List.map_cons, List.append_assoc]
              rfl

theorem pass2_preserves_members (fs : FileSystem) (beh : StoreBehavior) (paths : List String)
    (dbList : List ContentRecord) :
    ∀ (r : SyncResult) (st : Store) (c : ContentRecord) (p : String),
      c ∈ st.contents → c.localFilePath = some p → p ∈ paths →
      c ∈ (pass2Store (pass2 fs beh paths dbList r st)).contents := by
  induction dbList with
  | nil => intro r st c p hm _ _; simpa [pass2, pass2Store] using hm
  | cons d rest ih =>
    intro r st c p hm hcp hpp
    cases hlp : d.localFilePath with
    | none =>
      rw [show pass2 fs beh paths (d :: rest) r st = pass2 fs beh paths rest r st by
        simp [pass2, hlp]]
      exact ih r st c p hm hcp hpp
    | some q =>
      by_cases hq : q = ""
      · subst hq
        rw [show pass2 fs beh paths (d :: rest) r st = pass2 fs beh paths rest r st by
          simp [pass2, hlp]]
        exact ih r st c p hm hcp hpp
      · by_cases hqmem : q ∈ paths
        · rw [show pass2 fs beh paths (d :: rest) r st = pass2 fs beh paths rest r st by
            simp [pass2, hlp, hq, hqmem]]
          exact ih r st c p hm hcp hpp
        · by_cases hacc : fs.accessible q = true
          · rw [show pass2 fs beh paths (d :: rest) r st =
                pass2 fs beh paths rest { r with unchanged := r.unchanged + 1 } st by
              simp [pass2, hlp, hq, hqmem, hacc]]
            exact ih _ st c p hm hcp hpp
          · simp only [Bool.not_eq_true] at hacc
            by_cases hdf : q ∈ beh.deleteFails
            · rw [show pass2 fs beh paths (d :: rest) r st =
                  Except.error ("delete failed: " ++ q, r,
                    { st with log := st.log ++ [StoreOp.delete q] }) by
                simp [pass2, hlp, hq, hqmem, hacc, hdf]]
              simpa [pass2Store] using hm
            · rw [show pass2 fs beh paths (d :: rest) r st =
                  pass2 fs beh paths rest { r with removed := r.removed + 1 }
                    (st.deleteContentByLocalPath q) by
                simp [pass2, hlp, hq, hqmem, hacc, hdf]]
              refine ih _ _ c p ?_ hcp hpp
              simp only [Store.deleteContentByLocalPath]
              refine List.mem_filter.mpr ⟨hm, ?_⟩
              have : p ≠ q := fun h => hqmem (h ▸ hpp)
              simp [hcp, this]

theorem pass2_log_delete_only (fs : FileSystem) (beh : StoreBehavior) (paths : List String)
    (dbList : List ContentRecord) :
    ∀ (r : SyncResult) (st : Store) (op : StoreOp),
      op ∈ (pass2Store (pass2 fs beh paths dbList r st)).log →
      op ∈ st.log ∨ ∃ p, op = StoreOp.delete p := by
  induction dbList with
  | nil => intro r st op h; exact Or.inl (by simpa [pass2, pass2Store] using h)
  | cons d rest ih =>
    intro r st op h
    cases hlp : d.localFilePath with
    | none =>
      rw [show pass2 fs beh paths (d :: rest) r st = pass2 fs beh paths rest r st by
        simp [pass2, hlp]] at h
      exact ih r st op h
    | some q =>
      by_cases hq : q = ""
      · subst hq
        rw [show pass2 fs beh paths (d :: rest) r st = pass2 fs beh paths rest r st by
          simp [pass2, hlp]] at h
        exact ih r st op h
      · by_cases hqmem : q ∈ paths
        · rw [show pass2 fs beh paths (d :: rest) r st = pass2 fs beh paths rest r st by
            simp [pass2, hlp, hq, hqmem]] at h
          exact ih r st op h
        · by_cases hacc : fs.accessible q = true
          · rw [show pass2 fs beh paths (d :: rest) r st =
                pass2 fs beh paths rest { r with unchanged := r.unchanged + 1 } st by
              simp [pass2, hlp, hq, hqmem, hacc]] at h
            exact ih _ st op h
          · simp only [Bool.not_eq_true] at hacc
            by_cases hdf : q ∈ beh.deleteFails
            · rw [show pass2 fs beh paths (d :: rest) r st =
                  Except.error ("delete failed: " ++ q, r,
                    { st with log := st.log ++ [StoreOp.delete q] }) by
                simp [pass2, hlp, hq, hqmem, hacc, hdf]] at h
              simp only [pass2Store, List.mem_append, List.mem_singleton] at h
              rcases h with h | h
              · exact Or.inl h
              · exact Or.inr ⟨q, h⟩
            · rw [show pass2 fs beh paths (d :: rest) r st =
                  pass2 fs beh paths rest { r with removed := r.removed + 1 }
                    (st.deleteContentByLocalPath q) by
                simp [pass2, hlp, hq, hqmem, hacc, hdf]] at h
              rcases ih _ _ op h with h' | h'
              · simp only [Store.deleteContentByLocalPath, List.mem_append,
                  List.mem_singleton] at h'
                rcases h' with h'' | h''
                · exact Or.inl h''
                · exact Or.inr ⟨q, h''⟩
              · exact Or.inr h'

theorem syncEngine_noFail (A : List LocalFileInfo) (fs : FileSystem) (st : Store) :
    syncEngine (Except.ok A) fs noFail st =
      ({ (A.foldl (pass1Step noFail) (⟨0, 0, 0, []⟩, st)).1 with
          unchanged := (A.foldl (pass1Step noFail) (⟨0, 0, 0, []⟩, st)).1.unchanged +
            (((st.contents.filter (fun c => pathTruthy c.localFilePath)).filter
              (liveRec fs (A.map (fun f => f.localFilePath))))).length,
          removed := (A.foldl (pass1Step noFail) (⟨0, 0, 0, []⟩, st)).1.removed +
            (((st.contents.filter (fun c => pathTruthy c.localFilePath)).filter
              (deadRec fs (A.map (fun f => f.localFilePath))))).length },
       { contents := (A.foldl (pass1Step noFail) (⟨0, 0, 0, []⟩, st)).2.contents.filter
            (survives (deadPathsOf fs (A.map (fun f => f.localFilePath))
              (st.contents.filter (fun c => pathTruthy c.localFilePath)))),
         log := (A.foldl (pass1Step noFail) (⟨0, 0, 0, []⟩, st)).2.log ++
            (deadPathsOf fs (A.map (fun f => f.localFilePath))
              (st.contents.filter (fun c => pathTruthy c.localFilePath))).map StoreOp.delete }) := by
  simp only [syncEngine, syncBody]
  rw [show noFail.getAllFails = false from rfl]
  simp only [Bool.false_eq_true, if_false]
  rw [pass2_spec fs noFail _ rfl]

theorem sync_noFail_errors (fs : FileSystem) (st : Store) :
    (syncLocalMediaFiles fs noFail st).1.errors = [] := by
  show (syncEngine (Except.ok (scanLocalMediaFiles fs).1)
    (scanLocalMediaFiles fs).2 noFail st).1.errors = []
  rw [syncEngine_noFail]
  exact pass1_no_errors noFail rfl rfl _ _

theorem hasPath_isSome (st : Store) (p : String)
    (h : ∃ c ∈ st.contents, c.localFilePath = some p) :
    (st.getContentByLocalPath p).isSome = true := by
  rw [Store.getContentByLocalPath, List.find?_isSome]
  rcases h with ⟨c, hm, hp⟩
  exact ⟨c, hm, by simp [hp]⟩

theorem deadPathsOf_not_mem (fs : FileSystem) (paths : List String)
    (dbList : List ContentRecord) :
    ∀ q ∈ deadPathsOf fs paths dbList, q ∉ paths := by
  intro q hq
  simp only [deadPathsOf, List.mem_filterMap, List.mem_filter] at hq
  rcases hq with ⟨d, ⟨_, hdr⟩, hlp⟩
  simp only [deadRec, hlp] at hdr
  by_cases hq0 : q = ""
  · simp [hq0] at hdr
  · by_cases hqm : q ∈ paths
    · simp [hq0, hqm] at hdr
    · exact hqm

theorem survives_of_mem_paths (paths dead : List String) (c : ContentRecord) (p : String)
    (hc : c.localFilePath = some p) (hp : p ∈ paths) (hd : ∀ q ∈ dead, q ∉ paths) :
    survives dead c = true := by
  simp only [survives, List.all_eq_true]
  intro q hq
  have hnq := hd q hq
  simp only [hc, Bool.not_eq_true', beq_eq_false_iff_ne, ne_eq, Option.some.injEq]
  intro h
  exact hnq (h ▸ hp)

theorem mem_deadPathsOf (fs : FileSystem) (paths : List String)
    (dbList : List ContentRecord) (c : ContentRecord) (p : String)
    (hm : c ∈ dbList) (hc : c.localFilePath = some p) (hd : deadRec fs paths c = true) :
    p ∈ deadPathsOf fs paths dbList := by
  simp only [deadPathsOf, List.mem_filterMap, List.mem_filter]
  exact ⟨c, ⟨hm, hd⟩, hc⟩


theorem syncEngine_noFail_closed (A : List LocalFileInfo) (fs : FileSystem) (st : Store) :
    syncEngine (Except.ok A) fs noFail st =
      ({ (pass1Run A st).1 with
          unchanged := (pass1Run A st).1.unchanged +
            ((dbLocal st).filter (liveRec fs (pathsOf A))).length,
          removed := (pass1Run A st).1.removed +
            ((dbLocal st).filter (deadRec fs (pathsOf A))).length },
       run1Store fs A st) := by
  rw [syncEngine_noFail]
  rfl

theorem run1Store_present (fsS : FileSystem) (st : Store) (A : List LocalFileInfo) :
    ∀ fi ∈ A, ∃ c ∈ (run1Store fsS A st).contents,
      c.localFilePath = some fi.localFilePath := by
  intro fi hfi
  rcases pass1_present noFail rfl rfl A (⟨0, 0, 0, []⟩, st) fi hfi with ⟨c, hcm, hcp⟩
  refine ⟨c, ?_, hcp⟩
  show c ∈ (pass1Run A st).2.contents.filter
    (survives (deadPathsOf fsS (pathsOf A) (dbLocal st)))
  refine List.mem_filter.mpr ⟨hcm, ?_⟩
  exact survives_of_mem_paths (pathsOf A) _ c fi.localFilePath hcp
    (List.mem_map_of_mem _ hfi) (deadPathsOf_not_mem fsS _ _)

theorem run1Store_leftover_accessible (fsS : FileSystem) (st : Store) (A : List LocalFileInfo) :
    ∀ c ∈ (run1Store fsS A st).contents, ∀ p, c.localFilePath = some p → ¬ p = "" →
      p ∉ pathsOf A → fsS.accessible p = true := by
  intro c hc p hcp hp0 hpm
  have hc' := List.mem_filter.mp
    (show c ∈ (pass1Run A st).2.contents.filter
      (survives (deadPathsOf fsS (pathsOf A) (dbLocal st))) from hc)
  rcases pass1_contents_shape noFail A (⟨0, 0, 0, []⟩, st) with ⟨news, hshape, hnews⟩
  have hcm : c ∈ st.contents := by
    have hmem := hc'.1
    rw [show (pass1Run A st).2.contents =
      (A.foldl (pass1Step noFail) (⟨0, 0, 0, []⟩, st)).2.contents from rfl, hshape] at hmem
    rcases List.mem_append.mp hmem with h | h
    · exact h
    · exfalso
      rcases hnews c h with ⟨fi, hfi, rfl⟩
      apply hpm
      have hfp : fi.localFilePath = p := by
        simpa [convertToInsertContent] using hcp
      rw [← hfp]
      exact List.mem_map_of_mem _ hfi
  have hdbm : c ∈ dbLocal st :=
    List.mem_filter.mpr ⟨hcm, by simp [pathTruthy, hcp, hp0]⟩
  by_contra hna
  simp only [Bool.not_eq_true] at hna
  have hdr : deadRec fsS (pathsOf A) c = true := by
    simp [deadRec, hcp, hp0, hpm, hna]
  have hpd := mem_deadPathsOf fsS (pathsOf A) (dbLocal st) c p hdbm hcp hdr
  have hs := hc'.2
  simp only [survives, List.all_eq_true] at hs
  have := hs p hpd
  simp [hcp] at this

/-- C1 (corrected): second run of the sync with no filesystem changes in
between, with an all-succeeding store: added = 0 and removed = 0 as the claim
states, but unchanged equals the number of files matched by the scan PLUS the
number of store records whose non-empty local path lies outside the scanned
path set (all of which are still accessible and are re-counted as unchanged on
every run), not the scan count alone. -/
theorem c1_second_run_counts (fs : FileSystem) (st : Store) :
    (syncLocalMediaFiles (syncLocalMediaFiles fs noFail st).2.2 noFail
        (syncLocalMediaFiles fs noFail st).2.1).1.added = 0 ∧
    (syncLocalMediaFiles (syncLocalMediaFiles fs noFail st).2.2 noFail
        (syncLocalMediaFiles fs noFail st).2.1).1.removed = 0 ∧
    (syncLocalMediaFiles (syncLocalMediaFiles fs noFail st).2.2 noFail
        (syncLocalMediaFiles fs noFail st).2.1).1.unchanged =
      (scanLocalMediaFiles (syncLocalMediaFiles fs noFail st).2.2).1.length +
      ((syncLocalMediaFiles fs noFail st).2.1.contents.filter
        (fun c => pathTruthy c.localFilePath &&
          !(((scanLocalMediaFiles (syncLocalMediaFiles fs noFail st).2.2).1.map
            (fun f => f.localFilePath)).contains (c.localFilePath.getD "")))).length := by
  rcases hS : scanLocalMediaFiles fs with ⟨A, fsS⟩
  have hS2 : scanLocalMediaFiles fsS = (A, fsS) := by
    have h := scan_twice fs
    rw [hS] at h
    exact h
  have hrw1 : syncLocalMediaFiles fs noFail st =
      ({ (pass1Run A st).1 with
          unchanged := (pass1Run A st).1.unchanged +
            ((dbLocal st).filter (liveRec fsS (pathsOf A))).length,
          removed := (pass1Run A st).1.removed +
            ((dbLocal st).filter (deadRec fsS (pathsOf A))).length },
       run1Store fsS A st, fsS) := by
    show ((syncEngine (Except.ok (scanLocalMediaFiles fs).1)
            (scanLocalMediaFiles fs).2 noFail st).1,
          (syncEngine (Except.ok (scanLocalMediaFiles fs).1)
            (scanLocalMediaFiles fs).2 noFail st).2,
          (scanLocalMediaFiles fs).2) = _
    rw [hS, syncEngine_noFail_closed]
  rw [hrw1]
  have hK2 : ∀ fi ∈ A,
      ((run1Store fsS A st).getContentByLocalPath fi.localFilePath).isSome = true :=
    fun fi hfi => hasPath_isSome _ _ (run1Store_present fsS st A fi hfi)
  have hfold2 : pass1Run A (run1Store fsS A st) =
      ({ (⟨0, 0, 0, []⟩ : SyncResult) with unchanged := 0 + A.length },
       run1Store fsS A st) :=
    pass1_all_found noFail rfl A ⟨0, 0, 0, []⟩ (run1Store fsS A st) hK2
  have hrw2 : syncLocalMediaFiles fsS noFail (run1Store fsS A st) =
      ({ ({ (⟨0, 0, 0, []⟩ : SyncResult) with unchanged := 0 + A.length }) with
          unchanged := (0 + A.length) +
            ((dbLocal (run1Store fsS A st)).filter (liveRec fsS (pathsOf A))).length,
          removed := 0 +
            ((dbLocal (run1Store fsS A st)).filter (deadRec fsS (pathsOf A))).length },
       run1Store fsS A (run1Store fsS A st), fsS) := by
    show ((syncEngine (Except.ok (scanLocalMediaFiles fsS).1)
            (scanLocalMediaFiles fsS).2 noFail (run1Store fsS A st)).1,
          (syncEngine (Except.ok (scanLocalMediaFiles fsS).1)
            (scanLocalMediaFiles fsS).2 noFail (run1Store fsS A st)).2,
          (scanLocalMediaFiles fsS).2) = _
    rw [hS2, syncEngine_noFail_closed, hfold2]
  rw [hrw2]
  have hdead2 : (dbLocal (run1Store fsS A st)).filter (deadRec fsS (pathsOf A)) = [] := by
    refine List.filter_eq_nil_iff.mpr (fun c hc => ?_)
    have hcSt1 : c ∈ (run1Store fsS A st).contents := (List.mem_filter.mp hc).1
    have htr := (List.mem_filter.mp hc).2
    cases hcp : c.localFilePath with
    | none => simp [deadRec, hcp]
    | some p =>
      have hp0 : ¬ p = "" := by simpa [pathTruthy, hcp] using htr
      by_cases hpm : p ∈ pathsOf A
      · simp [deadRec, hcp, hp0, hpm]
      · have := run1Store_leftover_accessible fsS st A c hcSt1 p hcp hp0 hpm
        simp [deadRec, hcp, hp0, hpm, this]
  have hlive2 : (dbLocal (run1Store fsS A st)).filter (liveRec fsS (pathsOf A)) =
      (run1Store fsS A st).contents.filter (fun c => pathTruthy c.localFilePath &&
        !((A.map (fun f => f.localFilePath)).contains (c.localFilePath.getD ""))) := by
    rw [show dbLocal (run1Store fsS A st) =
      (run1Store fsS A st).contents.filter (fun c => pathTruthy c.localFilePath) from rfl]
    rw [List.filter_filter]
    refine List.filter_congr (fun c hc => ?_)
    cases hcp : c.localFilePath with
    | none => simp [pathTruthy, liveRec, hcp]
    | some p =>
      by_cases hp0 : p = ""
      · simp [pathTruthy, liveRec, hcp, hp0]
      · by_cases hpm : p ∈ pathsOf A
        · have hpm' : p ∈ A.map (fun f => f.localFilePath) := hpm
          simp [pathTruthy, liveRec, hcp, hp0, hpm, hpm']
        · have hpm' : p ∉ A.map (fun f => f.localFilePath) := hpm
          have hacc := run1Store_leftover_accessible fsS st A c hc p hcp hp0 hpm
          simp [pathTruthy, liveRec, hcp, hp0, hpm, hpm', hacc]
  refine ⟨rfl, ?_, ?_⟩
  · show 0 + ((dbLocal (run1Store fsS A st)).filter (deadRec fsS (pathsOf A))).length = 0
    rw [hdead2]
    rfl
  · show (0 + A.length) +
        ((dbLocal (run1Store fsS A st)).filter (liveRec fsS (pathsOf A))).length =
      (scanLocalMediaFiles fsS).1.length + _
    rw [hS2, hlive2]
    simp

theorem deadPathsOf_not_accessible (fs : FileSystem) (paths : List String)
    (dbList : List ContentRecord) :
    ∀ q ∈ deadPathsOf fs paths dbList, fs.accessible q = false := by
  intro q hq
  simp only [deadPathsOf, List.mem_filterMap, List.mem_filter] at hq
  rcases hq with ⟨d, ⟨_, hdr⟩, hlp⟩
  simp only [deadRec, hlp] at hdr
  by_cases h1 : q = ""
  · simp [h1] at hdr
  · by_cases h2 : q ∈ paths
    · simp [h1, h2] at hdr
    · simp [h1, h2] at hdr
      exact hdr

theorem syncEngine_store (A : List LocalFileInfo) (fs : FileSystem) (beh : StoreBehavior)
    (st : Store) (hga : beh.getAllFails = false) :
    (syncEngine (Except.ok A) fs beh st).2 =
      pass2Store (pass2 fs beh (A.map (fun f => f.localFilePath))
        (st.contents.filter (fun c => pathTruthy c.localFilePath))
        (A.foldl (pass1Step beh) (⟨0, 0, 0, []⟩, st)).1
        (A.foldl (pass1Step beh) (⟨0, 0, 0, []⟩, st)).2) := by
  have hbody : syncBody (Except.ok A) fs beh st =
      pass2 fs beh (A.map (fun f => f.localFilePath))
        (st.contents.filter (fun c => pathTruthy c.localFilePath))
        (A.foldl (pass1Step beh) (⟨0, 0, 0, []⟩, st)).1
        (A.foldl (pass1Step beh) (⟨0, 0, 0, []⟩, st)).2 := by
    simp [syncBody, hga]
  cases hp : pass2 fs beh (A.map (fun f => f.localFilePath))
      (st.contents.filter (fun c => pathTruthy c.localFilePath))
      (A.foldl (pass1Step beh) (⟨0, 0, 0, []⟩, st)).1
      (A.foldl (pass1Step beh) (⟨0, 0, 0, []⟩, st)).2 with
  | ok pr => simp [syncEngine, hbody, hp, pass2Store]
  | error epr => simp [syncEngine, hbody, hp, pass2Store]

theorem mem_scanStep (files : List FSFile) (d : String) (t : MediaType) (exts : List String)
    (acc : List LocalFileInfo) (file : String) (x : LocalFileInfo)
    (hx : x ∈ scanStep files d t exts acc file) : x ∈ acc ∨ x.duration = none := by
  simp only [scanStep] at hx
  split at hx
  · split at hx
    · rcases List.mem_append.mp hx with h | h
      · exact Or.inl h
      · right
        simp only [List.mem_singleton] at h
        rw [h]
    · exact Or.inl hx
  · exact Or.inl hx

theorem scanStep_foldl_duration (files : List FSFile) (d : String) (t : MediaType)
    (exts : List String) (names : List String) :
    ∀ acc, (∀ x ∈ acc, x.duration = none) →
      ∀ fi ∈ names.foldl (scanStep files d t exts) acc, fi.duration = none := by
  induction names with
  | nil => intro acc h fi hfi; exact h fi hfi
  | cons n rest ih =>
    intro acc h fi hfi
    rw [List.foldl_cons] at hfi
    refine ih _ ?_ fi hfi
    intro x hx
    rcases mem_scanStep files d t exts acc n x hx with h' | h'
    · exact h x h'
    · exact h'

theorem scanDirectory_duration (fs : FileSystem) (d : String) (t : MediaType)
    (exts : List String) :
    ∀ fi ∈ (scanDirectory fs d t exts).1, fi.duration = none := by
  intro fi hfi
  by_cases h : fs.accessible d = true
  · simp only [scanDirectory, h, if_true] at hfi
    exact scanStep_foldl_duration fs.files d t exts _ [] (by simp) fi hfi
  · simp [scanDirectory, h] at hfi

theorem scan_duration (fs : FileSystem) :
    ∀ fi ∈ (scanLocalMediaFiles fs).1, fi.duration = none := by
  intro fi hfi
  rcases List.mem_append.mp hfi with h | h
  · exact scanDirectory_duration _ _ _ _ fi h
  · exact scanDirectory_duration _ _ _ _ fi h

/-- C1 counterexample: with an accessible store record at path x outside the scan
set (empty media directories), the second run returns unchanged = 1 while the
scan matches 0 files, refuting "unchanged equal to the number of files matched
by the scan" (added and removed are 0 as claimed). -/
theorem c1_counterexample_unchanged :
    (syncLocalMediaFiles (syncLocalMediaFiles fsExtraX noFail ⟨[recX], []⟩).2.2 noFail
      (syncLocalMediaFiles fsExtraX noFail ⟨[recX], []⟩).2.1).1.unchanged = 1 ∧
    (scanLocalMediaFiles (syncLocalMediaFiles fsExtraX noFail ⟨[recX], []⟩).2.2).1.length = 0 := by
  decide

/-- C2 counterexample: three otherwise-valid images with the stat of one file
throwing and an empty store yield added = 2, unchanged = 0 and an EMPTY error
list: the per-file scan error is only logged inside the scanner and never
surfaces in the SyncResult, refuting "exactly one entry in errors". -/
theorem c2_counterexample_errors_empty :
    syncLocalMediaFiles fsThreeOneBad noFail ⟨[], []⟩ =
      (⟨2, 0, 0, []⟩,
       ⟨[convertToInsertContent ⟨"a", MediaType.image, IMAGES_DIR ++ "/a.jpg", "image/jpeg", 100, none⟩,
         convertToInsertContent ⟨"b", MediaType.image, IMAGES_DIR ++ "/b.jpg", "image/jpeg", 200, none⟩],
        [StoreOp.create (convertToInsertContent ⟨"a", MediaType.image, IMAGES_DIR ++ "/a.jpg", "image/jpeg", 100, none⟩),
         StoreOp.create (convertToInsertContent ⟨"b", MediaType.image, IMAGES_DIR ++ "/b.jpg", "image/jpeg", 200, none⟩)]⟩,
       fsThreeOneBad) := by
  decide

/-- C3 counterexample: with two store records whose paths are both gone and a
delete that throws on the first, the run returns removed = 0 with one
top-level error and the second record still in the store: the removal pass was
aborted, it did not continue with the next item. -/
theorem c3_counterexample_abort :
    (syncLocalMediaFiles fsEmptyDirs behDelFail ⟨[recGoneA, recGoneB], []⟩).1 =
      ⟨0, 0, 0, ["Sync failed: delete failed: gone/a"]⟩ ∧
    (syncLocalMediaFiles fsEmptyDirs behDelFail ⟨[recGoneA, recGoneB], []⟩).2.1.contents =
      [recGoneA, recGoneB] := by
  decide

/-- C2 (amended): per-file scan errors are caught and logged inside the scanner
and the file is skipped, but they are NOT surfaced in the result's error list:
with an all-succeeding store the error list of a sync run is always empty, and
the one-bad-among-three scenario returns exactly added = 2, unchanged = 0,
errors = []. -/
theorem c2_scan_error_not_surfaced :
    (∀ (fs : FileSystem) (st : Store),
      (syncLocalMediaFiles fs noFail st).1.errors = []) ∧
    (syncLocalMediaFiles fsThreeOneBad noFail ⟨[], []⟩).1 = ⟨2, 0, 0, []⟩ :=
  ⟨sync_noFail_errors, by decide⟩

/-- C3 (amended): in the addition pass every item is processed and contributes
exactly one of added, unchanged or an error entry, so a createContent failure
is recorded and processing continues; but in the removal pass a throwing
deleteContentByLocalPath escapes the per-item handler: the pass aborts
immediately with the failed delete logged, the accumulated tally carried to the
top-level handler, and the remaining items unprocessed (the result does not
depend on them). -/
theorem c3_per_item_error_policy :
    (∀ (beh : StoreBehavior) (A : List LocalFileInfo) (acc : SyncResult × Store),
      (A.foldl (pass1Step beh) acc).1.added + (A.foldl (pass1Step beh) acc).1.unchanged +
        ((A.foldl (pass1Step beh) acc).1.errors).length =
      acc.1.added + acc.1.unchanged + acc.1.errors.length + A.length) ∧
    (∀ (fs : FileSystem) (beh : StoreBehavior) (paths : List String)
        (c : ContentRecord) (rest : List ContentRecord) (r : SyncResult) (st : Store)
        (p : String),
      c.localFilePath = some p → ¬ p = "" → p ∉ paths → fs.accessible p = false →
      p ∈ beh.deleteFails →
      pass2 fs beh paths (c :: rest) r st =
        Except.error ("delete failed: " ++ p, r,
          { st with log := st.log ++ [StoreOp.delete p] })) := by
  constructor
  · exact fun beh A acc => pass1_count beh A acc
  · intro fs beh paths c rest r st p hcp hp0 hpm hacc hdf
    simp [pass2, hcp, hp0, hpm, hacc, hdf]

/-- C3 witness: the abort equation instantiated at the concrete fixture. -/
theorem c3_per_item_error_policy_witness :
    ((([] : List LocalFileInfo).foldl (pass1Step noFail) (⟨0, 0, 0, []⟩, (⟨[], []⟩ : Store))).1.added +
      (([] : List LocalFileInfo).foldl (pass1Step noFail) (⟨0, 0, 0, []⟩, (⟨[], []⟩ : Store))).1.unchanged +
      ((([] : List LocalFileInfo).foldl (pass1Step noFail) (⟨0, 0, 0, []⟩, (⟨[], []⟩ : Store))).1.errors).length =
      0 + 0 + 0 + ([] : List LocalFileInfo).length) ∧
    pass2 fsEmptyDirs behDelFail [] (recGoneA :: [recGoneB]) ⟨0, 0, 0, []⟩ ⟨[recGoneA, recGoneB], []⟩ =
      Except.error ("delete failed: " ++ "gone/a", ⟨0, 0, 0, []⟩,
        { (⟨[recGoneA, recGoneB], []⟩ : Store) with
            log := (⟨[recGoneA, recGoneB], []⟩ : Store).log ++ [StoreOp.delete "gone/a"] }) :=
  ⟨c3_per_item_error_policy.1 noFail [] (⟨0, 0, 0, []⟩, ⟨[], []⟩),
   c3_per_item_error_policy.2 fsEmptyDirs behDelFail [] recGoneA [recGoneB] ⟨0, 0, 0, []⟩
     ⟨[recGoneA, recGoneB], []⟩ "gone/a" (by decide) (by decide) (by decide) (by decide)
     (by decide)⟩

/-- C4 (confirmed): the run always returns a SyncResult for every behaviour of
the scanner and the store: the engine either returns the body's result, or the
body raised and the engine returns the partial tally accumulated at the raise
with the failure appended to errors; in particular a throwing scan yields the
zero tally with a single "Sync failed" entry and an untouched store. -/
theorem c4_never_raises :
    (∀ (scanRes : Except String (List LocalFileInfo)) (fs : FileSystem)
        (beh : StoreBehavior) (st : Store),
      ∃ r st2, syncEngine scanRes fs beh st = (r, st2) ∧
        (syncBody scanRes fs beh st = Except.ok (r, st2) ∨
          ∃ e r0, syncBody scanRes fs beh st = Except.error (e, r0, st2) ∧
            r = { r0 with errors := r0.errors ++ ["Sync failed: " ++ e] })) ∧
    (∀ (e : String) (fs : FileSystem) (beh : StoreBehavior) (st : Store),
      syncEngine (Except.error e) fs beh st = (⟨0, 0, 0, ["Sync failed: " ++ e]⟩, st)) := by
  constructor
  · intro scanRes fs beh st
    cases hb : syncBody scanRes fs beh st with
    | ok pr =>
      exact ⟨pr.1, pr.2, by simp [syncEngine, hb], Or.inl (by simp [hb])⟩
    | error epr =>
      exact ⟨{ epr.2.1 with errors := epr.2.1.errors ++ ["Sync failed: " ++ epr.1] },
        epr.2.2, by simp [syncEngine, hb], Or.inr ⟨epr.1, epr.2.1, by simp [hb], rfl⟩⟩
  · intro e fs beh st
    rfl

/-- C5 (confirmed): invoking syncWithLock while the in-progress flag is set
returns null immediately, leaves the flag as it was, and leaves the store
(including its call log, so zero createContent and zero deleteContentByLocalPath
calls) and the filesystem untouched: the engine is not run. -/
theorem c5_lock_skip :
    ∀ (fs : FileSystem) (beh : StoreBehavior) (st : Store),
      syncWithLock true fs beh st = (none, true, st, fs) :=
  fun _ _ _ => rfl

/-- C6 (confirmed): every invocation that acquired the flag (entered with the
flag clear) leaves the flag clear again, whether the engine returns normally or
raises: the finally-release holds on all exit paths. -/
theorem c6_lock_release :
    ∀ engine : Except String SyncResult, (runExclusive false engine).2 = false := by
  intro engine
  cases engine <;> rfl

/-- C7 (confirmed): with deletes succeeding, the removal pass completes and:
unchanged grows by exactly the records whose truthy path is outside the scan
set but still accessible; removed grows by exactly the records whose truthy
path is outside the scan set and inaccessible; every delete call issued is for
a path that is both outside the scan set and inaccessible; and a record whose
path is outside the scan set but accessible is never removed from the store. -/
theorem c7_removal_guard (fs : FileSystem) (beh : StoreBehavior) (paths : List String)
    (dbList : List ContentRecord) (r : SyncResult) (st : Store)
    (hdel : beh.deleteFails = []) :
    ∃ r' st', pass2 fs beh paths dbList r st = Except.ok (r', st') ∧
      r'.unchanged = r.unchanged + (dbList.filter (liveRec fs paths)).length ∧
      r'.removed = r.removed + (dbList.filter (deadRec fs paths)).length ∧
      (∀ op ∈ st'.log, op ∈ st.log ∨
        ∃ p, op = StoreOp.delete p ∧ p ∉ paths ∧ fs.accessible p = false ∧
          ∃ c ∈ dbList, c.localFilePath = some p) ∧
      (∀ c ∈ dbList, ∀ p, c.localFilePath = some p → ¬ p = "" → p ∉ paths →
        fs.accessible p = true → c ∈ st.contents → c ∈ st'.contents) := by
  rw [pass2_spec fs beh paths hdel dbList r st]
  refine ⟨_, _, rfl, rfl, rfl, ?_, ?_⟩
  · intro op hop
    rcases List.mem_append.mp hop with h | h
    · exact Or.inl h
    · rcases List.mem_map.mp h with ⟨q, hq, rfl⟩
      refine Or.inr ⟨q, rfl, deadPathsOf_not_mem fs paths dbList q hq,
        deadPathsOf_not_accessible fs paths dbList q hq, ?_⟩
      simp only [deadPathsOf, List.mem_filterMap, List.mem_filter] at hq
      rcases hq with ⟨d, ⟨hdm, _⟩, hlp⟩
      exact ⟨d, hdm, hlp⟩
  · intro c hcm p hcp hp0 hpm hacc hcs
    refine List.mem_filter.mpr ⟨hcs, ?_⟩
    simp only [survives, List.all_eq_true]
    intro q hq
    have hqa := deadPathsOf_not_accessible fs paths dbList q hq
    simp only [hcp, Bool.not_eq_true', beq_eq_false_iff_ne, ne_eq, Option.some.injEq]
    intro hpq
    rw [hpq] at hacc
    simp [hqa] at hacc

/-- C7 witness: the removal pass at a record whose path gone/a is outside the
scanned path set and inaccessible, with an all-succeeding store. -/
theorem c7_removal_guard_witness :
    ∃ r' st',
      pass2 fsEmptyDirs noFail ["keep"] [recGoneA] ⟨0, 0, 0, []⟩ ⟨[recGoneA], []⟩ =
        Except.ok (r', st') ∧
      r'.unchanged = (⟨0, 0, 0, []⟩ : SyncResult).unchanged +
        (([recGoneA].filter (liveRec fsEmptyDirs ["keep"]))).length ∧
      r'.removed = (⟨0, 0, 0, []⟩ : SyncResult).removed +
        (([recGoneA].filter (deadRec fsEmptyDirs ["keep"]))).length ∧
      (∀ op ∈ st'.log, op ∈ (⟨[recGoneA], []⟩ : Store).log ∨
        ∃ p, op = StoreOp.delete p ∧ p ∉ ["keep"] ∧
          fsEmptyDirs.accessible p = false ∧
          ∃ c ∈ [recGoneA], c.localFilePath = some p) ∧
      (∀ c ∈ [recGoneA], ∀ p, c.localFilePath = some p → ¬ p = "" → p ∉ ["keep"] →
        fsEmptyDirs.accessible p = true → c ∈ (⟨[recGoneA], []⟩ : Store).contents →
        c ∈ st'.contents) :=
  c7_removal_guard fsEmptyDirs noFail ["keep"] [recGoneA] ⟨0, 0, 0, []⟩
    ⟨[recGoneA], []⟩ rfl

/-- C8 (confirmed): a scanned file whose path already has a store record only
increments unchanged — the step returns the store exactly as it was (same
records, same call log, so no mutation is issued); and across a whole run any
record whose path is in the scan set survives in the store with its fields
untouched, for every store behaviour. -/
theorem c8_no_update_in_place :
    (∀ (beh : StoreBehavior) (r : SyncResult) (st : Store) (fi : LocalFileInfo),
      fi.localFilePath ∉ beh.lookupFails →
      (st.getContentByLocalPath fi.localFilePath).isSome = true →
      pass1Step beh (r, st) fi = ({ r with unchanged := r.unchanged + 1 }, st)) ∧
    (∀ (fs : FileSystem) (beh : StoreBehavior) (st : Store) (c : ContentRecord),
      beh.getAllFails = false → c ∈ st.contents →
      (∃ fi ∈ (scanLocalMediaFiles fs).1, c.localFilePath = some fi.localFilePath) →
      c ∈ ((syncLocalMediaFiles fs beh st).2.1).contents) := by
  constructor
  · intro beh r st fi h1 h2
    exact pass1Step_found beh r st fi h1 h2
  · intro fs beh st c hga hcm hex
    rcases hex with ⟨fi, hfi, hcp⟩
    show c ∈ ((syncEngine (Except.ok (scanLocalMediaFiles fs).1)
      (scanLocalMediaFiles fs).2 beh st).2).contents
    rw [syncEngine_store (scanLocalMediaFiles fs).1 (scanLocalMediaFiles fs).2 beh st hga]
    rcases pass1_contents_shape beh (scanLocalMediaFiles fs).1 (⟨0, 0, 0, []⟩, st)
      with ⟨news, hshape, _⟩
    have hc1 : c ∈ ((scanLocalMediaFiles fs).1.foldl (pass1Step beh)
        (⟨0, 0, 0, []⟩, st)).2.contents := by
      rw [hshape]
      exact List.mem_append_left _ hcm
    exact pass2_preserves_members (scanLocalMediaFiles fs).2 beh
      ((scanLocalMediaFiles fs).1.map (fun f => f.localFilePath)) _ _ _ c
      fi.localFilePath hc1 hcp (List.mem_map_of_mem _ hfi)

/-- C8 witness: the unchanged step at a present record, and survival of the
record of a.jpg through a full run over fsTwo. -/
theorem c8_no_update_in_place_witness :
    pass1Step noFail (⟨0, 0, 0, []⟩, ⟨[recX], []⟩)
        ⟨"x", MediaType.image, "x", "image/png", 1, none⟩ =
      ({ (⟨0, 0, 0, []⟩ : SyncResult) with unchanged := 0 + 1 }, ⟨[recX], []⟩) ∧
    recAJpg ∈ ((syncLocalMediaFiles fsTwo noFail ⟨[recAJpg], []⟩).2.1).contents :=
  ⟨c8_no_update_in_place.1 noFail ⟨0, 0, 0, []⟩ ⟨[recX], []⟩
      ⟨"x", MediaType.image, "x", "image/png", 1, none⟩ (by decide) (by decide),
   c8_no_update_in_place.2 fsTwo noFail ⟨[recAJpg], []⟩ recAJpg rfl (by decide) (by decide)⟩

/-- C9 (confirmed): a configured directory that is not accessible at scan time
is created recursively, contributes zero descriptors, and with an
all-succeeding store no error is reported anywhere in the run. -/
theorem c9_missing_directory :
    ∀ (fs : FileSystem) (d : String) (t : MediaType) (exts : List String),
      fs.accessible d = false →
      scanDirectory fs d t exts = ([], fs.mkdirRec d) ∧
      (fs.mkdirRec d).accessible d = true ∧
      (∀ st : Store, (syncLocalMediaFiles fs noFail st).1.errors = []) := by
  intro fs d t exts h
  refine ⟨?_, accessible_mkdirRec_self fs d, fun st => sync_noFail_errors fs st⟩
  simp [scanDirectory, h]

/-- C9 witness: the empty filesystem, where the images directory is missing. -/
theorem c9_missing_directory_witness :
    FileSystem.accessible ⟨[], [], []⟩ IMAGES_DIR = false ∧
    (scanDirectory ⟨[], [], []⟩ IMAGES_DIR MediaType.image IMAGE_EXTENSIONS =
        ([], FileSystem.mkdirRec ⟨[], [], []⟩ IMAGES_DIR) ∧
      (FileSystem.mkdirRec ⟨[], [], []⟩ IMAGES_DIR).accessible IMAGES_DIR = true ∧
      (syncLocalMediaFiles ⟨[], [], []⟩ noFail ⟨[], []⟩).1.errors = []) := by
  refine ⟨by decide, ?_⟩
  have h := c9_missing_directory ⟨[], [], []⟩ IMAGES_DIR MediaType.image
    IMAGE_EXTENSIONS (by decide)
  exact ⟨h.1, h.2.1, h.2.2 ⟨[], []⟩⟩

/-- C10 (confirmed): every descriptor the scanner produces has duration unset,
and every record created by a sync run (for any store behaviour) has duration
none and the remote-storage fields explicitly null. -/
theorem c10_duration_unset :
    (∀ (fs : FileSystem) (fi : LocalFileInfo), fi ∈ (scanLocalMediaFiles fs).1 →
      fi.duration = none) ∧
    (∀ (fs : FileSystem) (beh : StoreBehavior) (st : Store) (c : ContentRecord),
      StoreOp.create c ∈ ((syncLocalMediaFiles fs beh st).2.1).log →
      StoreOp.create c ∈ st.log ∨
        (c.duration = none ∧ c.googleDriveId = none ∧ c.googleDriveUrl = none)) := by
  constructor
  · exact fun fs fi hfi => scan_duration fs fi hfi
  · intro fs beh st c hop
    have hop2 : StoreOp.create c ∈ (syncEngine (Except.ok (scanLocalMediaFiles fs).1)
        (scanLocalMediaFiles fs).2 beh st).2.log := hop
    by_cases hga : beh.getAllFails = true
    · left
      have heq : (syncEngine (Except.ok (scanLocalMediaFiles fs).1)
          (scanLocalMediaFiles fs).2 beh st).2 = st := by
        simp [syncEngine, syncBody, hga]
      rw [heq] at hop2
      exact hop2
    · simp only [Bool.not_eq_true] at hga
      rw [syncEngine_store (scanLocalMediaFiles fs).1 (scanLocalMediaFiles fs).2 beh st hga]
        at hop2
      rcases pass2_log_delete_only (scanLocalMediaFiles fs).2 beh
          ((scanLocalMediaFiles fs).1.map (fun f => f.localFilePath))
          (st.contents.filter (fun x => pathTruthy x.localFilePath)) _ _ _ hop2
        with h | ⟨p, hp⟩
      · rcases pass1_log_shape beh (scanLocalMediaFiles fs).1 (⟨0, 0, 0, []⟩, st)
          with ⟨es, hlog, hes⟩
        rw [hlog] at h
        rcases List.mem_append.mp h with h' | h'
        · exact Or.inl h'
        · right
          rcases hes _ h' with ⟨fi, hfi, heq2⟩
          have hc : c = convertToInsertContent fi := by
            injection heq2
          subst hc
          refine ⟨?_, rfl, rfl⟩
          show (convertToInsertContent fi).duration = none
          have hd := scan_duration fs fi hfi
          simp [convertToInsertContent, hd]
      · simp at hp

/-- C10 witness: the a.jpg descriptor and the record created from it. -/
theorem c10_duration_unset_witness :
    fiAJpg.duration = none ∧
    (recAJpg.duration = none ∧ recAJpg.googleDriveId = none ∧
      recAJpg.googleDriveUrl = none) :=
  ⟨c10_duration_unset.1 fsTwo fiAJpg (by decide),
   (c10_duration_unset.2 fsTwo noFail ⟨[], []⟩ recAJpg (by decide)).resolve_left
     (by decide)⟩
